import Mathlib

/-!
Verification of the jsonc type-inference engine.

This file shallowly embeds the core of the jsonc repository (src/main.rs,
src/language.rs, src/formatting.rs): the JSON value model, the per-language
renderer functions (`Rust`, `Scala`, `Go`, `Java` implementations of the
`LanguageFormatter` trait), and the recursive type-inference engine
(`infer_array`, `infer_struct`, `generate_types`).  Machine strings are
modelled as Lean `String`s (lists of characters); Rust's Unicode
`char::to_uppercase` is modelled as ASCII uppercasing, which agrees with it
on all ASCII input.  `serde_json::Number` is modelled by its only observable
used by this program: the `is_f64` flag (does the number's representation
require floating point).
-/

/-- The JSON value tree, mirroring `serde_json::Value` as consumed by the
engine: `num` carries only the `is_f64` observation (whether the number's
own representation requires floating point), which is the only thing the
program ever asks of a number. Object fields are an insertion-ordered
association list. -/
inductive Json where
  | null : Json
  | bool (b : Bool) : Json
  | num (isFloat : Bool) : Json
  | str (s : String) : Json
  | arr (elems : List Json) : Json
  | obj (fields : List (String × Json)) : Json

/-- `Value::is_null` from serde_json. -/
def Json.isNull : Json → Bool
  | .null => true
  | _ => false

/-- ASCII model of `char::to_uppercase` as used by `first_char_upper`
(src/language.rs line 31, src/formatting.rs line 31). -/
def charToUpper (c : Char) : Char :=
  if 97 ≤ c.toNat ∧ c.toNat ≤ 122 then Char.ofNat (c.toNat - 32) else c

/-- `first_char_upper` (src/language.rs lines 31-40) on a character list:
uppercase the first character, keep the rest. -/
def firstCharUpperL : List Char → List Char
  | [] => []
  | c :: cs => charToUpper c :: cs

/-- Rust's `str::split('_')` on a character list: splits at every
underscore, keeping empty segments, and yields at least one segment. -/
def splitUnderscore : List Char → List (List Char)
  | [] => [[]]
  | c :: cs =>
    if c = '_' then [] :: splitUnderscore cs
    else
      match splitUnderscore cs with
      | [] => [[c]]
      | w :: ws => (c :: w) :: ws

/-- The PascalCase normalisation shared by every `struct_or_class_name`
implementation (src/language.rs lines 101-108, 166-173, 223-225, 277-284):
split the key on underscores, uppercase the first character of every
segment, concatenate. -/
def pascalCase (s : String) : String :=
  ⟨((splitUnderscore s.data).map firstCharUpperL).flatten⟩

/-- `camelcase` (src/language.rs lines 228-235): first underscore segment
kept as-is, every later segment gets its first character uppercased. -/
def camelcase (s : String) : String :=
  match splitUnderscore s.data with
  | [] => "Unknown"
  | w :: ws => ⟨w ++ (ws.map firstCharUpperL).flatten⟩

/-- Rust's `str::strip_suffix` on character lists: if `suf` is a suffix of
`s`, return `s` with that suffix removed. -/
def stripSuffixL (s suf : List Char) : Option (List Char) :=
  if s.drop (s.length - suf.length) = suf ∧ suf.length ≤ s.length then
    some (s.take (s.length - suf.length))
  else none

/-- Modelled from the spec: the file `src/constants.rs` is declared by
`main.rs` (`pub mod constants;`) but is not under `src/`; the spec fixes the
placeholder type name used for a root object or a keyless top-level array as
"AutoGenerated". -/
def GO_AUTO_GENERATED : String := "AutoGenerated"

/-- Modelled from the spec: `src/constants.rs` is missing; the Scala
placeholder name used by `Scala::struct_or_class_footer`. -/
def SCALA_AUTO_GENERATED : String := "AutoGenerated"

/-- Modelled from the spec: Rust boolean type name (`src/constants.rs` is
missing; the spec only requires a per-language boolean literal). -/
def RUST_BOOL : String := "bool"

/-- Modelled from the spec: Rust integer type name (`src/constants.rs` is
missing). -/
def RUST_INT : String := "i64"

/-- Modelled from the spec: Rust floating-point type name
(`src/constants.rs` is missing). -/
def RUST_FLOAT : String := "f64"

/-- Modelled from the spec: Rust string type name (`src/constants.rs` is
missing). -/
def RUST_STRING : String := "String"

/-- Modelled from the spec: Rust "any/unknown" type name
(`src/constants.rs` is missing). -/
def RUST_ANY : String := "Value"

/-- Modelled from the spec: Scala boolean type name. -/
def SCALA_BOOL : String := "Boolean"

/-- Modelled from the spec: Scala integer type name. -/
def SCALA_INT : String := "Int"

/-- Modelled from the spec: Scala floating-point type name. -/
def SCALA_FLOAT : String := "Double"

/-- Modelled from the spec: Scala string type name. -/
def SCALA_STRING : String := "String"

/-- Modelled from the spec: Scala "any/unknown" type name. -/
def SCALA_ANY : String := "Any"

/-- Modelled from the spec: Go boolean type name. -/
def GO_BOOL : String := "bool"

/-- Modelled from the spec: Go integer type name. -/
def GO_INT : String := "int"

/-- Modelled from the spec: Go floating-point type name. -/
def GO_FLOAT : String := "float64"

/-- Modelled from the spec: Go string type name. -/
def GO_STRING : String := "string"

/-- Modelled from the spec: Go "any/unknown" type name. -/
def GO_ANY : String := "interface\x7b\x7d"

/-- Modelled from the spec: Java boolean type name. -/
def JAVA_BOOL : String := "boolean"

/-- Modelled from the spec: Java integer type name. -/
def JAVA_INT : String := "int"

/-- Modelled from the spec: Java floating-point type name. -/
def JAVA_FLOAT : String := "double"

/-- Modelled from the spec: Java string type name. -/
def JAVA_STRING : String := "String"

/-- Modelled from the spec: Java "any/unknown" type name. -/
def JAVA_ANY : String := "Object"

/-- Modelled from the spec: generic (Go-flavoured) boolean type name used by
`formatting::get_primitive_type_name`. -/
def BOOL : String := "bool"

/-- Modelled from the spec: generic integer type name used by
`formatting::get_primitive_type_name`. -/
def INT : String := "int"

/-- Modelled from the spec: generic floating-point type name used by
`formatting::get_primitive_type_name`. -/
def FLOAT : String := "float64"

/-- Modelled from the spec: generic string type name used by
`formatting::get_primitive_type_name`. -/
def STRING : String := "string"

/-- Modelled from the spec: generic "any/unknown" type name used by
`formatting::get_primitive_type_name`. -/
def ANY : String := "interface\x7b\x7d"

/-- The four `LanguageFormatter` implementations (src/language.rs lines
52-55). -/
inductive Lang where
  | rust : Lang
  | scala : Lang
  | go : Lang
  | java : Lang
deriving DecidableEq

/-- `LanguageFormatter::field_name` of each implementation
(src/language.rs lines 67-69, 131-133, 186-194, 247-249). -/
def fieldName (lang : Lang) (jsonKey : String) : String :=
  match lang with
  | .rust => jsonKey
  | .scala => camelcase jsonKey
  | .go => pascalCase jsonKey
  | .java => camelcase jsonKey

/-- `LanguageFormatter::struct_or_class_name` of each implementation
(src/language.rs lines 101-108, 166-173, 223-225, 277-284); all four are the
same PascalCase transform (Go delegates to its `field_name`). -/
def structOrClassName (lang : Lang) (key : String) : String :=
  match lang with
  | .rust => pascalCase key
  | .scala => pascalCase key
  | .go => pascalCase key
  | .java => pascalCase key

/-- `LanguageFormatter::struct_or_class_header` of each implementation
(src/language.rs lines 58-61, 112-116, 177-180, 238-241). -/
def structOrClassHeader (lang : Lang) (raw : String) : String :=
  match lang with
  | .rust => "pub struct " ++ pascalCase raw ++ " " ++ "\x7b\n"
  | .scala => "case class " ++ pascalCase raw ++ "(\n"
  | .go => "type " ++ pascalCase raw ++ " struct" ++ " \x7b\n"
  | .java => "public class " ++ pascalCase raw ++ " " ++ "\x7b\n"

/-- `LanguageFormatter::struct_or_class_footer` of each implementation
(src/language.rs lines 63-65, 118-129, 182-184, 243-245); Scala computes its
closing indentation from the byte length of its own header. -/
def structOrClassFooter (lang : Lang) (structName : Option String) : String :=
  match lang with
  | .rust => "\x7d"
  | .scala =>
    let headerLen := (structOrClassHeader .scala (structName.getD SCALA_AUTO_GENERATED)).utf8ByteSize
    ⟨List.replicate (headerLen / 8) '\t' ++ [')']⟩
  | .go => "\x7d"
  | .java => "\x7d"

/-- `LanguageFormatter::format_field_type` of each implementation
(src/language.rs lines 71-73, 135-138, 196-199, 251-254).  The Go variant
renders the serialization tag from its `json_key` argument and the field
identifier from `field_name(json_key)`. -/
def formatFieldType (lang : Lang) (tpe : String) (jsonKey : String) : String :=
  match lang with
  | .rust => "\tpub " ++ jsonKey ++ ": " ++ tpe ++ ",\n"
  | .scala => "\t\t" ++ camelcase jsonKey ++ ": " ++ tpe ++ ",\n"
  | .go => "\t" ++ pascalCase jsonKey ++ "\t" ++ tpe ++ "\t\t`json:\"" ++ jsonKey ++ "\"`\n"
  | .java => "\tpublic " ++ tpe ++ " " ++ camelcase jsonKey ++ ";\n"

/-- `LanguageFormatter::format_arr_type` of each implementation
(src/language.rs lines 75-82, 140-147, 201-204, 256-258); note that the Java
implementation ignores its `optional` flag. -/
def formatArrType (lang : Lang) (arrType : String) (optional : Bool) : String :=
  match lang with
  | .rust => "Vec<" ++ (if optional then "Option<" ++ arrType ++ ">" else arrType) ++ ">"
  | .scala => "Seq[" ++ (if optional then "Option[" ++ arrType ++ "]" else arrType) ++ "]"
  | .go => "[]" ++ (if optional then "*" else "") ++ arrType
  | .java => "List<" ++ arrType ++ ">"

/-- `LanguageFormatter::premitive_type_name` of each implementation
(src/language.rs lines 84-99, 149-164, 206-221, 260-275); the source's
spelling of the method name is kept.  Array/Object fall into the catch-all
arm and map to the "any" name. -/
def premitiveTypeName (lang : Lang) (v : Json) : String :=
  match lang with
  | .rust =>
    match v with
    | .bool _ => RUST_BOOL
    | .num isFloat => if isFloat then RUST_FLOAT else RUST_INT
    | .str _ => RUST_STRING
    | .null => RUST_ANY
    | _ => RUST_ANY
  | .scala =>
    match v with
    | .bool _ => SCALA_BOOL
    | .num isFloat => if isFloat then SCALA_FLOAT else SCALA_INT
    | .str _ => SCALA_STRING
    | .null => SCALA_ANY
    | _ => SCALA_ANY
  | .go =>
    match v with
    | .bool _ => GO_BOOL
    | .num isFloat => if isFloat then GO_FLOAT else GO_INT
    | .str _ => GO_STRING
    | .null => GO_ANY
    | _ => GO_ANY
  | .java =>
    match v with
    | .bool _ => JAVA_BOOL
    | .num isFloat => if isFloat then JAVA_FLOAT else JAVA_INT
    | .str _ => JAVA_STRING
    | .null => JAVA_ANY
    | _ => JAVA_ANY

/-- `get_primitive_type_name` (src/formatting.rs lines 14-29). -/
def getPrimitiveTypeName (v : Json) : String :=
  match v with
  | .bool _ => BOOL
  | .num isFloat => if isFloat then FLOAT else INT
  | .str _ => STRING
  | .null => ANY
  | _ => ANY

/-- `LanguageFormatter::struct_name_from_array_key`, the trait's default
de-pluralization heuristic (src/language.rs lines 20-28): strip a trailing
"ies" into "y" (via `field_name`), else strip a trailing "s" (via
`struct_or_class_name`), else normalize the key as-is. -/
def structNameFromArrayKey (lang : Lang) (arrKey : String) : String :=
  match stripSuffixL arrKey.data "ies".data with
  | some stripped => fieldName lang ⟨stripped⟩ ++ "y"
  | none =>
    match stripSuffixL arrKey.data "s".data with
    | some stripped => structOrClassName lang ⟨stripped⟩
    | none => structOrClassName lang arrKey

mutual

/-- `infer_array` (src/main.rs lines 16-61), with the mutable accumulator
`structs_into` made explicit: the first component of the result is the list
of record texts the Rust function pushes into the accumulator (in push
order), the second is the returned array-type text.  `optional` is true iff
some element is null; only the first non-null element is inspected. -/
def inferArray (lang : Lang) (key : Option String) (v : Json) : List String × String :=
  match v with
  | .arr xs =>
    let optional := xs.any Json.isNull
    match h : xs.filter (fun j => !j.isNull) with
    | [] => ([], formatArrType lang (premitiveTypeName lang .null) optional)
    | .arr ys :: _ =>
      let inner := inferArray lang key (.arr ys)
      (inner.1, formatArrType lang inner.2 optional)
    | .obj fs :: _ =>
      let structName := structOrClassName lang (key.getD GO_AUTO_GENERATED)
      (inferStruct lang structName (.obj fs), formatArrType lang structName optional)
    | other :: _ => ([], formatArrType lang (premitiveTypeName lang other) optional)
  | _ => ([], formatArrType lang (premitiveTypeName lang .null) false)
termination_by sizeOf v
decreasing_by
  all_goals simp only [Json.arr.sizeOf_spec, Json.obj.sizeOf_spec]
  · have hm : Json.arr ys ∈ xs :=
      List.mem_of_mem_filter (h ▸ List.mem_cons_self _ _)
    have := List.sizeOf_lt_of_mem hm
    simp only [Json.arr.sizeOf_spec] at this
    omega
  · have hm : Json.obj fs ∈ xs :=
      List.mem_of_mem_filter (h ▸ List.mem_cons_self _ _)
    have := List.sizeOf_lt_of_mem hm
    simp only [Json.obj.sizeOf_spec] at this
    omega

/-- The field loop of `infer_struct` (src/main.rs lines 72-97): walks the
object's fields in order; the first component collects the nested record
texts pushed into `result`, the second the concatenated field lines pushed
onto `struct_content`. -/
def inferFields (lang : Lang) (fields : List (String × Json)) : List String × String :=
  match fields with
  | [] => ([], "")
  | (jsonKey, json) :: rest =>
    let headPart :=
      match json with
      | .obj fs =>
        (inferStruct lang jsonKey (.obj fs),
         formatFieldType lang (structOrClassName lang jsonKey) (fieldName lang jsonKey))
      | .arr xs =>
        let ia := inferArray lang (some jsonKey) (.arr xs)
        (ia.1, formatFieldType lang ia.2 jsonKey)
      | other => ([], formatFieldType lang (premitiveTypeName lang other) jsonKey)
    let tailPart := inferFields lang rest
    (headPart.1 ++ tailPart.1, headPart.2 ++ tailPart.2)
termination_by sizeOf fields
decreasing_by
  all_goals simp only [List.cons.sizeOf_spec, Prod.mk.sizeOf_spec, Json.obj.sizeOf_spec,
    Json.arr.sizeOf_spec] <;> omega

/-- `infer_struct` (src/main.rs lines 63-105): nested record texts
discovered while processing the fields come first, the record's own text is
pushed last; on a non-object the loop and the footer are skipped and the
result is the bare header. -/
def inferStruct (lang : Lang) (structName : String) (v : Json) : List String :=
  match v with
  | .obj fields =>
    let fc := inferFields lang fields
    fc.1 ++ [structOrClassHeader lang structName ++ fc.2 ++
      structOrClassFooter lang (some structName)]
  | _ => [structOrClassHeader lang structName]
termination_by sizeOf v
decreasing_by
  all_goals simp only [Json.obj.sizeOf_spec] <;> omega

end

/-- `generate_types` (src/main.rs lines 107-119): array root keeps only the
accumulator (the returned array-type text is discarded), object root runs
`infer_struct` under the placeholder name, any scalar root yields the empty
list. -/
def generateTypes (lang : Lang) (v : Json) : List String :=
  match v with
  | .arr _ => (inferArray lang none v).1
  | .obj _ => inferStruct lang GO_AUTO_GENERATED v
  | _ => []

/-- The per-language boolean type-name table (spec §4.1), for stating the
primitive-mapper claims. -/
def boolTypeName (lang : Lang) : String :=
  match lang with
  | .rust => RUST_BOOL
  | .scala => SCALA_BOOL
  | .go => GO_BOOL
  | .java => JAVA_BOOL

/-- The per-language integer type-name table (spec §4.1). -/
def intTypeName (lang : Lang) : String :=
  match lang with
  | .rust => RUST_INT
  | .scala => SCALA_INT
  | .go => GO_INT
  | .java => JAVA_INT

/-- The per-language floating-point type-name table (spec §4.1). -/
def floatTypeName (lang : Lang) : String :=
  match lang with
  | .rust => RUST_FLOAT
  | .scala => SCALA_FLOAT
  | .go => GO_FLOAT
  | .java => JAVA_FLOAT

/-- The per-language string type-name table (spec §4.1). -/
def stringTypeName (lang : Lang) : String :=
  match lang with
  | .rust => RUST_STRING
  | .scala => SCALA_STRING
  | .go => GO_STRING
  | .java => JAVA_STRING

/-- The per-language "any/unknown" type-name table (spec §4.1). -/
def anyTypeName (lang : Lang) : String :=
  match lang with
  | .rust => RUST_ANY
  | .scala => SCALA_ANY
  | .go => GO_ANY
  | .java => JAVA_ANY

/-- The single field line `infer_struct` emits for one `(key, value)` pair
(src/main.rs lines 72-97), used to state the field-order claim. -/
def fieldLine (lang : Lang) (kv : String × Json) : String :=
  match kv.2 with
  | .obj _ => formatFieldType lang (structOrClassName lang kv.1) (fieldName lang kv.1)
  | .arr _ => formatFieldType lang (inferArray lang (some kv.1) kv.2).2 kv.1
  | other => formatFieldType lang (premitiveTypeName lang other) kv.1

/-- Concatenation of a list of strings in order (the effect of repeated
`push_str`). -/
def strConcat : List String → String
  | [] => ""
  | s :: rest => s ++ strConcat rest

/-- `s` is a record definition whose header carries the (normalised) type
name `n`: it opens with the header rendered for some raw name that
normalises to `n`. -/
def IsRecordText (lang : Lang) (n : String) (s : String) : Prop :=
  ∃ raw body, s = structOrClassHeader lang raw ++ body ∧ structOrClassName lang raw = n

mutual

/-- The record type names that `infer_array` (src/main.rs lines 16-61)
writes into rendered output as array element types: the name chosen for a
first-non-null object element, plus every name referenced inside that
object's record. -/
def refNamesArray (lang : Lang) (key : Option String) (v : Json) : List String :=
  match v with
  | .arr xs =>
    match h : xs.filter (fun j => !j.isNull) with
    | [] => []
    | .arr ys :: _ => refNamesArray lang key (.arr ys)
    | .obj fs :: _ =>
      structOrClassName lang (key.getD GO_AUTO_GENERATED) :: refNamesFields lang fs
    | _ :: _ => []
  | _ => []
termination_by sizeOf v
decreasing_by
  all_goals simp only [Json.arr.sizeOf_spec, Json.obj.sizeOf_spec]
  · have hm : Json.arr ys ∈ xs :=
      List.mem_of_mem_filter (h ▸ List.mem_cons_self _ _)
    have := List.sizeOf_lt_of_mem hm
    simp only [Json.arr.sizeOf_spec] at this
    omega
  · have hm : Json.obj fs ∈ xs :=
      List.mem_of_mem_filter (h ▸ List.mem_cons_self _ _)
    have := List.sizeOf_lt_of_mem hm
    simp only [Json.obj.sizeOf_spec] at this
    omega

/-- The record type names that the field loop of `infer_struct`
(src/main.rs lines 72-97) writes into rendered output as field types: for a
nested-object field the name `struct_or_class_name(key)` used as the field's
type, plus the names referenced inside; for an array field the names
referenced by `infer_array`. -/
def refNamesFields (lang : Lang) (fields : List (String × Json)) : List String :=
  match fields with
  | [] => []
  | (jsonKey, json) :: rest =>
    (match json with
     | .obj fs => structOrClassName lang jsonKey :: refNamesFields lang fs
     | .arr xs => refNamesArray lang (some jsonKey) (.arr xs)
     | _ => []) ++ refNamesFields lang rest
termination_by sizeOf fields
decreasing_by
  all_goals simp only [List.cons.sizeOf_spec, Prod.mk.sizeOf_spec, Json.obj.sizeOf_spec,
    Json.arr.sizeOf_spec] <;> omega

end

/-- The record type names referenced anywhere in the output of one
`generate_types` invocation (src/main.rs lines 107-119). -/
def refNamesGenerate (lang : Lang) (v : Json) : List String :=
  match v with
  | .arr _ => refNamesArray lang none v
  | .obj fields => refNamesFields lang fields
  | _ => []

theorem str_append_assoc (a b c : String) : a ++ b ++ c = a ++ (b ++ c) := by
  apply String.ext
  simp [String.data_append, List.append_assoc]

theorem inferArray_null (lang : Lang) (key : Option String) :
    inferArray lang key .null = ([], formatArrType lang (premitiveTypeName lang .null) false) := by
  rw [inferArray.eq_def]

theorem inferArray_bool (lang : Lang) (key : Option String) (b : Bool) :
    inferArray lang key (.bool b) =
      ([], formatArrType lang (premitiveTypeName lang .null) false) := by
  rw [inferArray.eq_def]

theorem inferArray_num (lang : Lang) (key : Option String) (f : Bool) :
    inferArray lang key (.num f) =
      ([], formatArrType lang (premitiveTypeName lang .null) false) := by
  rw [inferArray.eq_def]

theorem inferArray_str (lang : Lang) (key : Option String) (s : String) :
    inferArray lang key (.str s) =
      ([], formatArrType lang (premitiveTypeName lang .null) false) := by
  rw [inferArray.eq_def]

theorem inferArray_obj (lang : Lang) (key : Option String) (fs : List (String × Json)) :
    inferArray lang key (.obj fs) =
      ([], formatArrType lang (premitiveTypeName lang .null) false) := by
  rw [inferArray.eq_def]

theorem inferArray_filter_nil (lang : Lang) (key : Option String) (xs : List Json)
    (h : xs.filter (fun j => !j.isNull) = []) :
    inferArray lang key (.arr xs) =
      ([], formatArrType lang (premitiveTypeName lang .null) (xs.any Json.isNull)) := by
  rw [inferArray.eq_def]
  dsimp only
  split
  all_goals (first | rfl | (rename_i heq; rw [h] at heq; simp at heq))

theorem inferArray_filter_arr (lang : Lang) (key : Option String) (xs : List Json)
    (ys : List Json) (t : List Json)
    (h : xs.filter (fun j => !j.isNull) = .arr ys :: t) :
    inferArray lang key (.arr xs) =
      ((inferArray lang key (.arr ys)).1,
       formatArrType lang (inferArray lang key (.arr ys)).2 (xs.any Json.isNull)) := by
  rw [inferArray.eq_def]
  dsimp only
  split
  all_goals (rename_i heq; rw [h] at heq; simp at heq)
  all_goals (try obtain ⟨rfl, rfl⟩ := heq)
  all_goals
    first
    | rfl
    | (rename_i f1 f2; first | exact (f1 _ rfl).elim | exact (f2 _ rfl).elim)

theorem inferArray_filter_obj (lang : Lang) (key : Option String) (xs : List Json)
    (fs : List (String × Json)) (t : List Json)
    (h : xs.filter (fun j => !j.isNull) = .obj fs :: t) :
    inferArray lang key (.arr xs) =
      (inferStruct lang (structOrClassName lang (key.getD GO_AUTO_GENERATED)) (.obj fs),
       formatArrType lang (structOrClassName lang (key.getD GO_AUTO_GENERATED))
         (xs.any Json.isNull)) := by
  rw [inferArray.eq_def]
  dsimp only
  split
  all_goals (rename_i heq; rw [h] at heq; simp at heq)
  all_goals (try obtain ⟨rfl, rfl⟩ := heq)
  all_goals
    first
    | rfl
    | (rename_i f1 f2; first | exact (f1 _ rfl).elim | exact (f2 _ rfl).elim)

theorem inferArray_filter_bool (lang : Lang) (key : Option String) (xs : List Json)
    (b : Bool) (t : List Json)
    (h : xs.filter (fun j => !j.isNull) = .bool b :: t) :
    inferArray lang key (.arr xs) =
      ([], formatArrType lang (premitiveTypeName lang (.bool b)) (xs.any Json.isNull)) := by
  rw [inferArray.eq_def]
  dsimp only
  split
  all_goals (rename_i heq; rw [h] at heq; simp at heq)
  all_goals (try obtain ⟨rfl, rfl⟩ := heq)
  all_goals
    first
    | rfl
    | (rename_i f1 f2; first | exact (f1 _ rfl).elim | exact (f2 _ rfl).elim)

theorem inferArray_filter_num (lang : Lang) (key : Option String) (xs : List Json)
    (f : Bool) (t : List Json)
    (h : xs.filter (fun j => !j.isNull) = .num f :: t) :
    inferArray lang key (.arr xs) =
      ([], formatArrType lang (premitiveTypeName lang (.num f)) (xs.any Json.isNull)) := by
  rw [inferArray.eq_def]
  dsimp only
  split
  all_goals (rename_i heq; rw [h] at heq; simp at heq)
  all_goals (try obtain ⟨rfl, rfl⟩ := heq)
  all_goals
    first
    | rfl
    | (rename_i f1 f2; first | exact (f1 _ rfl).elim | exact (f2 _ rfl).elim)

theorem inferArray_filter_str (lang : Lang) (key : Option String) (xs : List Json)
    (s : String) (t : List Json)
    (h : xs.filter (fun j => !j.isNull) = .str s :: t) :
    inferArray lang key (.arr xs) =
      ([], formatArrType lang (premitiveTypeName lang (.str s)) (xs.any Json.isNull)) := by
  rw [inferArray.eq_def]
  dsimp only
  split
  all_goals (rename_i heq; rw [h] at heq; simp at heq)
  all_goals (try obtain ⟨rfl, rfl⟩ := heq)
  all_goals
    first
    | rfl
    | (rename_i f1 f2; first | exact (f1 _ rfl).elim | exact (f2 _ rfl).elim)

theorem inferFields_nil (lang : Lang) : inferFields lang [] = ([], "") := by
  rw [inferFields.eq_def]

theorem inferFields_cons_obj (lang : Lang) (jsonKey : String) (fs : List (String × Json))
    (rest : List (String × Json)) :
    inferFields lang ((jsonKey, .obj fs) :: rest) =
      (inferStruct lang jsonKey (.obj fs) ++ (inferFields lang rest).1,
       formatFieldType lang (structOrClassName lang jsonKey) (fieldName lang jsonKey) ++
         (inferFields lang rest).2) := by
  rw [inferFields.eq_def]

theorem inferFields_cons_arr (lang : Lang) (jsonKey : String) (xs : List Json)
    (rest : List (String × Json)) :
    inferFields lang ((jsonKey, .arr xs) :: rest) =
      ((inferArray lang (some jsonKey) (.arr xs)).1 ++ (inferFields lang rest).1,
       formatFieldType lang (inferArray lang (some jsonKey) (.arr xs)).2 jsonKey ++
         (inferFields lang rest).2) := by
  rw [inferFields.eq_def]

theorem inferFields_cons_null (lang : Lang) (jsonKey : String)
    (rest : List (String × Json)) :
    inferFields lang ((jsonKey, .null) :: rest) =
      ((inferFields lang rest).1,
       formatFieldType lang (premitiveTypeName lang .null) jsonKey ++
         (inferFields lang rest).2) := by
  rw [inferFields.eq_def]
  rfl

theorem inferFields_cons_bool (lang : Lang) (jsonKey : String) (b : Bool)
    (rest : List (String × Json)) :
    inferFields lang ((jsonKey, .bool b) :: rest) =
      ((inferFields lang rest).1,
       formatFieldType lang (premitiveTypeName lang (.bool b)) jsonKey ++
         (inferFields lang rest).2) := by
  rw [inferFields.eq_def]
  rfl

theorem inferFields_cons_num (lang : Lang) (jsonKey : String) (f : Bool)
    (rest : List (String × Json)) :
    inferFields lang ((jsonKey, .num f) :: rest) =
      ((inferFields lang rest).1,
       formatFieldType lang (premitiveTypeName lang (.num f)) jsonKey ++
         (inferFields lang rest).2) := by
  rw [inferFields.eq_def]
  rfl

theorem inferFields_cons_str (lang : Lang) (jsonKey : String) (s : String)
    (rest : List (String × Json)) :
    inferFields lang ((jsonKey, .str s) :: rest) =
      ((inferFields lang rest).1,
       formatFieldType lang (premitiveTypeName lang (.str s)) jsonKey ++
         (inferFields lang rest).2) := by
  rw [inferFields.eq_def]
  rfl

theorem inferStruct_obj (lang : Lang) (structName : String)
    (fields : List (String × Json)) :
    inferStruct lang structName (.obj fields) =
      (inferFields lang fields).1 ++
        [structOrClassHeader lang structName ++ (inferFields lang fields).2 ++
          structOrClassFooter lang (some structName)] := by
  rw [inferStruct.eq_def]

theorem inferStruct_null (lang : Lang) (structName : String) :
    inferStruct lang structName .null = [structOrClassHeader lang structName] := by
  rw [inferStruct.eq_def]

theorem inferStruct_bool (lang : Lang) (structName : String) (b : Bool) :
    inferStruct lang structName (.bool b) = [structOrClassHeader lang structName] := by
  rw [inferStruct.eq_def]

theorem inferStruct_num (lang : Lang) (structName : String) (f : Bool) :
    inferStruct lang structName (.num f) = [structOrClassHeader lang structName] := by
  rw [inferStruct.eq_def]

theorem inferStruct_str (lang : Lang) (structName : String) (s : String) :
    inferStruct lang structName (.str s) = [structOrClassHeader lang structName] := by
  rw [inferStruct.eq_def]

theorem inferStruct_arr (lang : Lang) (structName : String) (xs : List Json) :
    inferStruct lang structName (.arr xs) = [structOrClassHeader lang structName] := by
  rw [inferStruct.eq_def]

theorem refNamesArray_filter_nil (lang : Lang) (key : Option String) (xs : List Json)
    (h : xs.filter (fun j => !j.isNull) = []) :
    refNamesArray lang key (.arr xs) = [] := by
  rw [refNamesArray.eq_def]
  dsimp only
  split
  all_goals (first | rfl | (rename_i heq; rw [h] at heq; simp at heq))

theorem refNamesArray_filter_arr (lang : Lang) (key : Option String) (xs : List Json)
    (ys : List Json) (t : List Json)
    (h : xs.filter (fun j => !j.isNull) = .arr ys :: t) :
    refNamesArray lang key (.arr xs) = refNamesArray lang key (.arr ys) := by
  rw [refNamesArray.eq_def]
  dsimp only
  split
  all_goals (rename_i heq; rw [h] at heq; simp at heq)
  all_goals (try obtain ⟨rfl, rfl⟩ := heq)
  all_goals
    first
    | rfl
    | (rename_i f1 f2; first | exact (f1 _ rfl).elim | exact (f2 _ rfl).elim)

theorem refNamesArray_filter_obj (lang : Lang) (key : Option String) (xs : List Json)
    (fs : List (String × Json)) (t : List Json)
    (h : xs.filter (fun j => !j.isNull) = .obj fs :: t) :
    refNamesArray lang key (.arr xs) =
      structOrClassName lang (key.getD GO_AUTO_GENERATED) :: refNamesFields lang fs := by
  rw [refNamesArray.eq_def]
  dsimp only
  split
  all_goals (rename_i heq; rw [h] at heq; simp at heq)
  all_goals (try obtain ⟨rfl, rfl⟩ := heq)
  all_goals
    first
    | rfl
    | (rename_i f1 f2; first | exact (f1 _ rfl).elim | exact (f2 _ rfl).elim)

theorem refNamesArray_filter_bool (lang : Lang) (key : Option String) (xs : List Json)
    (b : Bool) (t : List Json)
    (h : xs.filter (fun j => !j.isNull) = .bool b :: t) :
    refNamesArray lang key (.arr xs) = [] := by
  rw [refNamesArray.eq_def]
  dsimp only
  split
  all_goals (first | rfl | (rename_i heq; rw [h] at heq; simp at heq))

theorem refNamesArray_filter_num (lang : Lang) (key : Option String) (xs : List Json)
    (f : Bool) (t : List Json)
    (h : xs.filter (fun j => !j.isNull) = .num f :: t) :
    refNamesArray lang key (.arr xs) = [] := by
  rw [refNamesArray.eq_def]
  dsimp only
  split
  all_goals (first | rfl | (rename_i heq; rw [h] at heq; simp at heq))

theorem refNamesArray_filter_str (lang : Lang) (key : Option String) (xs : List Json)
    (s : String) (t : List Json)
    (h : xs.filter (fun j => !j.isNull) = .str s :: t) :
    refNamesArray lang key (.arr xs) = [] := by
  rw [refNamesArray.eq_def]
  dsimp only
  split
  all_goals (first | rfl | (rename_i heq; rw [h] at heq; simp at heq))

theorem refNamesFields_nil (lang : Lang) : refNamesFields lang [] = [] := by
  rw [refNamesFields.eq_def]

theorem refNamesFields_cons_obj (lang : Lang) (jsonKey : String)
    (fs : List (String × Json)) (rest : List (String × Json)) :
    refNamesFields lang ((jsonKey, .obj fs) :: rest) =
      (structOrClassName lang jsonKey :: refNamesFields lang fs) ++
        refNamesFields lang rest := by
  rw [refNamesFields.eq_def]

theorem refNamesFields_cons_arr (lang : Lang) (jsonKey : String) (xs : List Json)
    (rest : List (String × Json)) :
    refNamesFields lang ((jsonKey, .arr xs) :: rest) =
      refNamesArray lang (some jsonKey) (.arr xs) ++ refNamesFields lang rest := by
  rw [refNamesFields.eq_def]

theorem refNamesFields_cons_null (lang : Lang) (jsonKey : String)
    (rest : List (String × Json)) :
    refNamesFields lang ((jsonKey, .null) :: rest) = refNamesFields lang rest := by
  rw [refNamesFields.eq_def]
  rfl

theorem refNamesFields_cons_bool (lang : Lang) (jsonKey : String) (b : Bool)
    (rest : List (String × Json)) :
    refNamesFields lang ((jsonKey, .bool b) :: rest) = refNamesFields lang rest := by
  rw [refNamesFields.eq_def]
  rfl

theorem refNamesFields_cons_num (lang : Lang) (jsonKey : String) (f : Bool)
    (rest : List (String × Json)) :
    refNamesFields lang ((jsonKey, .num f) :: rest) = refNamesFields lang rest := by
  rw [refNamesFields.eq_def]
  rfl

theorem refNamesFields_cons_str (lang : Lang) (jsonKey : String) (s : String)
    (rest : List (String × Json)) :
    refNamesFields lang ((jsonKey, .str s) :: rest) = refNamesFields lang rest := by
  rw [refNamesFields.eq_def]
  rfl

theorem char_toNat_ofNat (n : Nat) (h1 : n < 55296) : (Char.ofNat n).toNat = n := by
  simp [Char.ofNat, Nat.isValidChar, h1, Char.ofNatAux, Char.toNat, UInt32.toNat,
    BitVec.toNat_ofNatLt]

theorem charToUpper_eq_self (c : Char) (h : ¬(97 ≤ c.toNat ∧ c.toNat ≤ 122)) :
    charToUpper c = c := by
  unfold charToUpper
  rw [if_neg h]

theorem charToUpper_toNat_lower (c : Char) (h : 97 ≤ c.toNat ∧ c.toNat ≤ 122) :
    (charToUpper c).toNat = c.toNat - 32 := by
  unfold charToUpper
  rw [if_pos h]
  exact char_toNat_ofNat _ (by omega)

theorem charToUpper_idem (c : Char) : charToUpper (charToUpper c) = charToUpper c := by
  by_cases h : 97 ≤ c.toNat ∧ c.toNat ≤ 122
  · have h1 := charToUpper_toNat_lower c h
    exact charToUpper_eq_self _ (by omega)
  · rw [charToUpper_eq_self c h, charToUpper_eq_self c h]

theorem charToUpper_ne_underscore (c : Char) (h : c ≠ '_') : charToUpper c ≠ '_' := by
  by_cases hl : 97 ≤ c.toNat ∧ c.toNat ≤ 122
  · have h1 := charToUpper_toNat_lower c hl
    intro hc
    rw [hc] at h1
    rw [show ('_' : Char).toNat = 95 from rfl] at h1
    omega
  · rw [charToUpper_eq_self c hl]
    exact h

theorem splitUnderscore_no_underscore (l : List Char) :
    ∀ w ∈ splitUnderscore l, '_' ∉ w := by
  induction l with
  | nil => simp [splitUnderscore]
  | cons c cs ih =>
    intro w hw
    rw [splitUnderscore] at hw
    by_cases hc : c = '_'
    · rw [if_pos hc] at hw
      rcases List.mem_cons.mp hw with h1 | h1
      · simp [h1]
      · exact ih w h1
    · rw [if_neg hc] at hw
      rcases hsp : splitUnderscore cs with ⟨⟩ | ⟨w0, ws⟩
      · rw [hsp] at hw
        rcases List.mem_cons.mp hw with h1 | h1
        · subst h1
          simp only [List.mem_singleton]
          exact fun hh => hc hh.symm
        · simp at h1
      · rw [hsp] at hw
        rcases List.mem_cons.mp hw with h1 | h1
        · subst h1
          intro hmem
          rcases List.mem_cons.mp hmem with h2 | h2
          · exact hc h2.symm
          · exact ih w0 (hsp ▸ List.mem_cons_self _ _) h2
        · exact ih w (hsp ▸ List.mem_cons.mpr (Or.inr h1))

theorem splitUnderscore_of_no_underscore (l : List Char) (h : '_' ∉ l) :
    splitUnderscore l = [l] := by
  induction l with
  | nil => rfl
  | cons c cs ih =>
    rw [splitUnderscore]
    have hc : ¬(c = '_') := by
      intro hc
      exact h (hc ▸ List.mem_cons_self _ _)
    rw [if_neg hc]
    rw [ih (fun hm => h (List.mem_cons.mpr (Or.inr hm)))]

theorem firstCharUpperL_flatten (ws : List (List Char)) :
    firstCharUpperL ((ws.map firstCharUpperL).flatten) = (ws.map firstCharUpperL).flatten := by
  induction ws with
  | nil => rfl
  | cons w ws ih =>
    cases w with
    | nil => simpa using ih
    | cons c cs =>
      simp only [List.map_cons, List.flatten_cons, firstCharUpperL, List.cons_append]
      rw [charToUpper_idem]

theorem pascal_no_underscore (l : List Char) :
    '_' ∉ ((splitUnderscore l).map firstCharUpperL).flatten := by
  intro hmem
  rcases List.mem_flatten.mp hmem with ⟨w, hw, hcw⟩
  rcases List.mem_map.mp hw with ⟨w0, hw0, rfl⟩
  have hno := splitUnderscore_no_underscore l w0 hw0
  cases w0 with
  | nil => simp [firstCharUpperL] at hcw
  | cons c cs =>
    rw [firstCharUpperL] at hcw
    rcases List.mem_cons.mp hcw with h1 | h1
    · exact charToUpper_ne_underscore c
        (fun hc => hno (hc ▸ List.mem_cons_self _ _)) h1.symm
    · exact hno (List.mem_cons.mpr (Or.inr h1))

theorem pascalCase_idem (s : String) : pascalCase (pascalCase s) = pascalCase s := by
  unfold pascalCase
  have hd : (String.mk (((splitUnderscore s.data).map firstCharUpperL).flatten)).data =
      ((splitUnderscore s.data).map firstCharUpperL).flatten := rfl
  rw [hd, splitUnderscore_of_no_underscore _ (pascal_no_underscore s.data)]
  simp only [List.map_cons, List.map_nil, List.flatten_cons, List.flatten_nil,
    List.append_nil]
  rw [firstCharUpperL_flatten]

theorem structOrClassName_idem (lang : Lang) (s : String) :
    structOrClassName lang (structOrClassName lang s) = structOrClassName lang s := by
  cases lang <;> exact pascalCase_idem s

theorem inferFields_content (lang : Lang) (fields : List (String × Json)) :
    (inferFields lang fields).2 = strConcat (fields.map (fieldLine lang)) := by
  induction fields with
  | nil => rw [inferFields_nil]; rfl
  | cons kv rest ih =>
    obtain ⟨k, j⟩ := kv
    cases j with
    | null =>
      rw [inferFields_cons_null, List.map_cons]
      dsimp only [fieldLine, strConcat]
      rw [ih]
    | bool b =>
      rw [inferFields_cons_bool, List.map_cons]
      dsimp only [fieldLine, strConcat]
      rw [ih]
    | num f =>
      rw [inferFields_cons_num, List.map_cons]
      dsimp only [fieldLine, strConcat]
      rw [ih]
    | str s =>
      rw [inferFields_cons_str, List.map_cons]
      dsimp only [fieldLine, strConcat]
      rw [ih]
    | arr xs =>
      rw [inferFields_cons_arr, List.map_cons]
      dsimp only [fieldLine, strConcat]
      rw [ih]
    | obj fs =>
      rw [inferFields_cons_obj, List.map_cons]
      dsimp only [fieldLine, strConcat]
      rw [ih]

mutual

theorem refNamesFields_covered (lang : Lang) (fields : List (String × Json)) :
    ∀ n ∈ refNamesFields lang fields,
      ∃ s ∈ (inferFields lang fields).1, IsRecordText lang n s := by
  intro n hmem
  match fields with
  | [] =>
    rw [refNamesFields_nil] at hmem
    simp at hmem
  | (k, .null) :: rest =>
    rw [refNamesFields_cons_null] at hmem
    obtain ⟨s, hs, hr⟩ := refNamesFields_covered lang rest n hmem
    refine ⟨s, ?_, hr⟩
    rw [inferFields_cons_null]
    exact hs
  | (k, .bool b) :: rest =>
    rw [refNamesFields_cons_bool] at hmem
    obtain ⟨s, hs, hr⟩ := refNamesFields_covered lang rest n hmem
    refine ⟨s, ?_, hr⟩
    rw [inferFields_cons_bool]
    exact hs
  | (k, .num f) :: rest =>
    rw [refNamesFields_cons_num] at hmem
    obtain ⟨s, hs, hr⟩ := refNamesFields_covered lang rest n hmem
    refine ⟨s, ?_, hr⟩
    rw [inferFields_cons_num]
    exact hs
  | (k, .str st) :: rest =>
    rw [refNamesFields_cons_str] at hmem
    obtain ⟨s, hs, hr⟩ := refNamesFields_covered lang rest n hmem
    refine ⟨s, ?_, hr⟩
    rw [inferFields_cons_str]
    exact hs
  | (k, .arr xs) :: rest =>
    rw [refNamesFields_cons_arr] at hmem
    rw [inferFields_cons_arr]
    rcases List.mem_append.mp hmem with h1 | h1
    · obtain ⟨s, hs, hr⟩ := refNamesArray_covered lang (some k) (.arr xs) n h1
      exact ⟨s, List.mem_append_left _ hs, hr⟩
    · obtain ⟨s, hs, hr⟩ := refNamesFields_covered lang rest n h1
      exact ⟨s, List.mem_append_right _ hs, hr⟩
  | (k, .obj fs) :: rest =>
    rw [refNamesFields_cons_obj] at hmem
    rw [inferFields_cons_obj]
    rcases List.mem_append.mp hmem with h1 | h1
    · rcases List.mem_cons.mp h1 with h2 | h2
      · subst h2
        refine ⟨structOrClassHeader lang k ++ (inferFields lang fs).2 ++
            structOrClassFooter lang (some k), ?_, ?_⟩
        · apply List.mem_append_left
          rw [inferStruct_obj]
          exact List.mem_append_right _ (List.mem_cons_self _ _)
        · exact ⟨k, (inferFields lang fs).2 ++ structOrClassFooter lang (some k),
            str_append_assoc _ _ _, rfl⟩
      · obtain ⟨s, hs, hr⟩ := refNamesFields_covered lang fs n h2
        refine ⟨s, ?_, hr⟩
        apply List.mem_append_left
        rw [inferStruct_obj]
        exact List.mem_append_left _ hs
    · obtain ⟨s, hs, hr⟩ := refNamesFields_covered lang rest n h1
      exact ⟨s, List.mem_append_right _ hs, hr⟩
termination_by sizeOf fields
decreasing_by
  all_goals simp only [List.cons.sizeOf_spec, Prod.mk.sizeOf_spec, Json.obj.sizeOf_spec,
    Json.arr.sizeOf_spec] <;> omega

theorem refNamesArray_covered (lang : Lang) (key : Option String) (v : Json) :
    ∀ n ∈ refNamesArray lang key v,
      ∃ s ∈ (inferArray lang key v).1, IsRecordText lang n s := by
  intro n hmem
  match v with
  | .null => rw [refNamesArray.eq_def] at hmem; simp at hmem
  | .bool b => rw [refNamesArray.eq_def] at hmem; simp at hmem
  | .num f => rw [refNamesArray.eq_def] at hmem; simp at hmem
  | .str st => rw [refNamesArray.eq_def] at hmem; simp at hmem
  | .obj fs => rw [refNamesArray.eq_def] at hmem; simp at hmem
  | .arr xs =>
    match hfe : xs.filter (fun j => !j.isNull) with
    | [] =>
      rw [refNamesArray_filter_nil lang key xs hfe] at hmem
      simp at hmem
    | .null :: t =>
      have hin := List.mem_filter.mp (hfe ▸ List.mem_cons_self Json.null t)
      simp [Json.isNull] at hin
    | .bool b :: t =>
      rw [refNamesArray_filter_bool lang key xs b t hfe] at hmem
      simp at hmem
    | .num f :: t =>
      rw [refNamesArray_filter_num lang key xs f t hfe] at hmem
      simp at hmem
    | .str st :: t =>
      rw [refNamesArray_filter_str lang key xs st t hfe] at hmem
      simp at hmem
    | .arr ys :: t =>
      rw [refNamesArray_filter_arr lang key xs ys t hfe] at hmem
      obtain ⟨s, hs, hr⟩ := refNamesArray_covered lang key (.arr ys) n hmem
      refine ⟨s, ?_, hr⟩
      rw [inferArray_filter_arr lang key xs ys t hfe]
      exact hs
    | .obj fs :: t =>
      rw [refNamesArray_filter_obj lang key xs fs t hfe] at hmem
      rw [inferArray_filter_obj lang key xs fs t hfe]
      rcases List.mem_cons.mp hmem with h2 | h2
      · subst h2
        refine ⟨structOrClassHeader lang (structOrClassName lang (key.getD GO_AUTO_GENERATED)) ++
            (inferFields lang fs).2 ++
            structOrClassFooter lang (some (structOrClassName lang (key.getD GO_AUTO_GENERATED))),
          ?_, ?_⟩
        · rw [inferStruct_obj]
          exact List.mem_append_right _ (List.mem_cons_self _ _)
        · exact ⟨structOrClassName lang (key.getD GO_AUTO_GENERATED), _,
            str_append_assoc _ _ _, structOrClassName_idem lang _⟩
      · obtain ⟨s, hs, hr⟩ := refNamesFields_covered lang fs n h2
        refine ⟨s, ?_, hr⟩
        rw [inferStruct_obj]
        exact List.mem_append_left _ hs
termination_by sizeOf v
decreasing_by
  all_goals simp only [Json.arr.sizeOf_spec, Json.obj.sizeOf_spec]
  · have hm : Json.arr ys ∈ xs :=
      List.mem_of_mem_filter (hfe ▸ List.mem_cons_self _ _)
    have := List.sizeOf_lt_of_mem hm
    simp only [Json.arr.sizeOf_spec] at this
    omega
  · have hm : Json.obj fs ∈ xs :=
      List.mem_of_mem_filter (hfe ▸ List.mem_cons_self _ _)
    have := List.sizeOf_lt_of_mem hm
    simp only [Json.obj.sizeOf_spec] at this
    omega

end

/-- C1: for every JSON object, `infer_struct` appends all nested record
definitions discovered while processing its fields to the output list before
appending its own record text, and its own record text is the last element
of the list it returns; in particular `generate` on
`{"user": {"id": 1, "name": "x"}}` (Go renderer) yields exactly two record
definitions, the record for the nested object (named from key `user`) first
and the root record, whose single field `user` has that nested type name,
last. -/
theorem c1_nested_records_before_parent :
    (∀ (lang : Lang) (nm : String) (fields : List (String × Json)),
      (inferStruct lang nm (.obj fields)).dropLast = (inferFields lang fields).1 ∧
      (inferStruct lang nm (.obj fields)).getLast? =
        some (structOrClassHeader lang nm ++ (inferFields lang fields).2 ++
          structOrClassFooter lang (some nm))) ∧
    generateTypes .go
        (Json.obj [("user", Json.obj [("id", Json.num false), ("name", Json.str "x")])]) =
      ["type User struct \x7b\n\tId\t" ++ GO_INT ++ "\t\t`json:\"id\"`\n\tName\t" ++
         GO_STRING ++ "\t\t`json:\"name\"`\n\x7d",
       "type AutoGenerated struct \x7b\n\tUser\tUser\t\t`json:\"User\"`\n\x7d"] := by
  constructor
  · intro lang nm fields
    rw [inferStruct_obj]
    constructor
    · simp
    · simp
  · show inferStruct .go GO_AUTO_GENERATED _ = _
    simp only [inferStruct_obj, inferFields_cons_obj, inferFields_cons_num,
      inferFields_cons_str, inferFields_nil]
    rfl

/-- C2: for every array, `infer_array` determines its whole result from only
the null-flag and the first non-null element (no cross-element unification),
and for an array whose first non-null element is an object with key `a` and
whose second is an object with keys `a`, `b`, the generated record type has
only field `a` — key `b` is silently dropped. -/
theorem c2_first_element_only :
    (∀ (lang : Lang) (key : Option String) (xs ys : List Json),
      xs.any Json.isNull = ys.any Json.isNull →
      (xs.filter (fun j => !j.isNull)).head? = (ys.filter (fun j => !j.isNull)).head? →
      inferArray lang key (.arr xs) = inferArray lang key (.arr ys)) ∧
    inferArray .go (some "users")
        (.arr [.obj [("a", .num false)], .obj [("a", .num false), ("b", .num false)]]) =
      (["type Users struct \x7b\n\tA\t" ++ GO_INT ++ "\t\t`json:\"a\"`\n\x7d"], "[]Users") := by
  constructor
  · intro lang key xs ys hflag hhead
    cases hx : xs.filter (fun j => !j.isNull) with
    | nil =>
      have hy : ys.filter (fun j => !j.isNull) = [] := by
        rw [hx] at hhead
        exact List.head?_eq_none_iff.mp hhead.symm
      rw [inferArray_filter_nil lang key xs hx, inferArray_filter_nil lang key ys hy, hflag]
    | cons c t =>
      cases hy : ys.filter (fun j => !j.isNull) with
      | nil =>
        rw [hx, hy] at hhead
        simp at hhead
      | cons c' t' =>
        have hcc : c = c' := by
          rw [hx, hy] at hhead
          simpa using hhead
        subst hcc
        cases c with
        | null =>
          have hin := List.mem_filter.mp (hx ▸ List.mem_cons_self Json.null t)
          simp [Json.isNull] at hin
        | bool b =>
          rw [inferArray_filter_bool lang key xs b t hx,
            inferArray_filter_bool lang key ys b t' hy, hflag]
        | num f =>
          rw [inferArray_filter_num lang key xs f t hx,
            inferArray_filter_num lang key ys f t' hy, hflag]
        | str s =>
          rw [inferArray_filter_str lang key xs s t hx,
            inferArray_filter_str lang key ys s t' hy, hflag]
        | arr zs =>
          rw [inferArray_filter_arr lang key xs zs t hx,
            inferArray_filter_arr lang key ys zs t' hy, hflag]
        | obj fs =>
          rw [inferArray_filter_obj lang key xs fs t hx,
            inferArray_filter_obj lang key ys fs t' hy, hflag]
  · rw [inferArray_filter_obj .go (some "users")
      [.obj [("a", .num false)], .obj [("a", .num false), ("b", .num false)]]
      [("a", .num false)] [.obj [("a", .num false), ("b", .num false)]] rfl]
    simp only [inferStruct_obj, inferFields_cons_num, inferFields_nil]
    rfl

/-- Witness for C2: the general first-element-only theorem applied at two
concrete arrays that agree on their null-flag and first non-null element but
differ elsewhere. -/
theorem c2_first_element_only_witness :
    inferArray .go none (.arr [.num false, .null]) =
      inferArray .go none (.arr [.null, .num false, .str "zz"]) :=
  c2_first_element_only.1 .go none [.num false, .null] [.null, .num false, .str "zz"]
    rfl rfl

theorem str_ne_of_length_ne {a b : String} (h : a.length ≠ b.length) : a ≠ b :=
  fun he => h (he ▸ rfl)

/-- C3 counterexample: the claim fails for the Java renderer, which ignores
the `optional` flag: an array with a null next to a non-null element renders
exactly like the array without the null — the element type is not wrapped as
optional. -/
theorem c3_counterexample_java_ignores_optional :
    (inferArray .java none (.arr [.null, .num false])).2 =
      (inferArray .java none (.arr [.num false])).2 ∧
    formatArrType .java JAVA_INT true = formatArrType .java JAVA_INT false := by
  constructor
  · rw [inferArray_filter_num .java none [.null, .num false] false [] rfl,
      inferArray_filter_num .java none [.num false] false [] rfl]
    rfl
  · rfl

/-- C3 (amended): for every array and every renderer the `optional` flag
passed to `format_arr_type` is true iff some element of the array is JSON
null; the Rust, Scala and Go renderers wrap the element type when the flag
is set (and render it bare otherwise, a different text), while the Java
renderer ignores the flag and never wraps. -/
theorem c3_optional_flag_amended :
    (∀ (lang : Lang) (key : Option String) (xs : List Json),
      ∃ t, (inferArray lang key (.arr xs)).2 = formatArrType lang t (xs.any Json.isNull)) ∧
    (∀ t : String,
      formatArrType .rust t true = "Vec<" ++ ("Option<" ++ t ++ ">") ++ ">" ∧
      formatArrType .rust t false = "Vec<" ++ t ++ ">" ∧
      formatArrType .rust t true ≠ formatArrType .rust t false) ∧
    (∀ t : String,
      formatArrType .scala t true = "Seq[" ++ ("Option[" ++ t ++ "]") ++ "]" ∧
      formatArrType .scala t false = "Seq[" ++ t ++ "]" ∧
      formatArrType .scala t true ≠ formatArrType .scala t false) ∧
    (∀ t : String,
      formatArrType .go t true = "[]" ++ "*" ++ t ∧
      formatArrType .go t false = "[]" ++ "" ++ t ∧
      formatArrType .go t true ≠ formatArrType .go t false) ∧
    (∀ (t : String) (b1 b2 : Bool), formatArrType .java t b1 = formatArrType .java t b2) := by
  refine ⟨?_, ?_, ?_, ?_, ?_⟩
  · intro lang key xs
    cases hx : xs.filter (fun j => !j.isNull) with
    | nil =>
      exact ⟨premitiveTypeName lang .null, by rw [inferArray_filter_nil lang key xs hx]⟩
    | cons c t =>
      cases c with
      | null =>
        have hin := List.mem_filter.mp (hx ▸ List.mem_cons_self Json.null t)
        simp [Json.isNull] at hin
      | bool b =>
        exact ⟨premitiveTypeName lang (.bool b),
          by rw [inferArray_filter_bool lang key xs b t hx]⟩
      | num f =>
        exact ⟨premitiveTypeName lang (.num f),
          by rw [inferArray_filter_num lang key xs f t hx]⟩
      | str s =>
        exact ⟨premitiveTypeName lang (.str s),
          by rw [inferArray_filter_str lang key xs s t hx]⟩
      | arr zs =>
        exact ⟨(inferArray lang key (.arr zs)).2,
          by rw [inferArray_filter_arr lang key xs zs t hx]⟩
      | obj fs =>
        exact ⟨structOrClassName lang (key.getD GO_AUTO_GENERATED),
          by rw [inferArray_filter_obj lang key xs fs t hx]⟩
  · intro t
    refine ⟨rfl, rfl, str_ne_of_length_ne ?_⟩
    rw [show formatArrType .rust t true = "Vec<" ++ ("Option<" ++ t ++ ">") ++ ">" from rfl,
      show formatArrType .rust t false = "Vec<" ++ t ++ ">" from rfl]
    simp only [String.length_append]
    rw [show ("Vec<" : String).length = 4 from rfl,
      show ("Option<" : String).length = 7 from rfl,
      show (">" : String).length = 1 from rfl]
    omega
  · intro t
    refine ⟨rfl, rfl, str_ne_of_length_ne ?_⟩
    rw [show formatArrType .scala t true = "Seq[" ++ ("Option[" ++ t ++ "]") ++ "]" from rfl,
      show formatArrType .scala t false = "Seq[" ++ t ++ "]" from rfl]
    simp only [String.length_append]
    rw [show ("Seq[" : String).length = 4 from rfl,
      show ("Option[" : String).length = 7 from rfl,
      show ("]" : String).length = 1 from rfl]
    omega
  · intro t
    refine ⟨rfl, rfl, str_ne_of_length_ne ?_⟩
    rw [show formatArrType .go t true = "[]" ++ "*" ++ t from rfl,
      show formatArrType .go t false = "[]" ++ "" ++ t from rfl]
    simp only [String.length_append]
    rw [show ("[]" : String).length = 2 from rfl,
      show ("*" : String).length = 1 from rfl,
      show ("" : String).length = 0 from rfl]
    omega
  · intro t b1 b2
    rfl

/-- C4: the de-pluralization heuristic `struct_name_from_array_key` behaves
exactly as the claim describes ("categories" → "Category", "users" →
"User", "data" → "Data"), but the engine never calls it: `infer_array`
applies `struct_or_class_name` directly to the array key, so the record
generated for `{"categories": [{"x": 1}]}` is named "Categories", not
"Category". -/
theorem c4_depluralization_unused :
    structNameFromArrayKey .go "categories" = "Category" ∧
    structNameFromArrayKey .go "users" = "User" ∧
    structNameFromArrayKey .go "data" = "Data" ∧
    (inferArray .go (some "categories") (.arr [.obj [("x", .num false)]])).1 =
      ["type Categories struct \x7b\n\tX\t" ++ GO_INT ++ "\t\t`json:\"x\"`\n\x7d"] ∧
    structOrClassName .go "categories" = "Categories" := by
  refine ⟨rfl, rfl, rfl, ?_, rfl⟩
  rw [inferArray_filter_obj .go (some "categories") [.obj [("x", .num false)]]
    [("x", .num false)] [] rfl]
  simp only [inferStruct_obj, inferFields_cons_num, inferFields_nil]
  rfl

/-- C5: `generate` never fails on a well-formed JsonValue: a bare scalar
root produces the empty list, a bare array root keeps only the accumulated
record definitions (the returned array-type text is discarded), and a bare
empty array or bare array of primitives such as `[1,2,3]` produces the empty
list. -/
theorem c5_generate_total :
    (∀ lang : Lang, generateTypes lang .null = []) ∧
    (∀ (lang : Lang) (b : Bool), generateTypes lang (.bool b) = []) ∧
    (∀ (lang : Lang) (f : Bool), generateTypes lang (.num f) = []) ∧
    (∀ (lang : Lang) (s : String), generateTypes lang (.str s) = []) ∧
    (∀ (lang : Lang) (xs : List Json),
      generateTypes lang (.arr xs) = (inferArray lang none (.arr xs)).1) ∧
    (∀ lang : Lang, generateTypes lang (.arr []) = []) ∧
    (∀ lang : Lang,
      generateTypes lang (.arr [.num false, .num false, .num false]) = []) := by
  refine ⟨fun lang => rfl, fun lang b => rfl, fun lang f => rfl, fun lang s => rfl,
    fun lang xs => rfl, ?_, ?_⟩
  · intro lang
    show (inferArray lang none (.arr [])).1 = []
    rw [inferArray_filter_nil lang none [] rfl]
  · intro lang
    show (inferArray lang none (.arr [.num false, .num false, .num false])).1 = []
    rw [inferArray_filter_num lang none [.num false, .num false, .num false] false
      [.num false, .num false] rfl]

/-- C6: for every JSON object, the rendered record consists of the header,
then one field line per source field in exactly the source object's key
iteration order, then the footer. -/
theorem c6_field_order (lang : Lang) (nm : String) (fields : List (String × Json)) :
    inferStruct lang nm (.obj fields) =
      (inferFields lang fields).1 ++
        [structOrClassHeader lang nm ++ strConcat (fields.map (fieldLine lang)) ++
          structOrClassFooter lang (some nm)] := by
  rw [inferStruct_obj, inferFields_content]

/-- C7: for every array whose non-null elements are exhausted (empty array
or all-null array), `infer_array` uses the primitive mapping of Null (the
per-language "any" type) as the element type, returns
`format_arr_type(any, optional)`, and appends no record definitions. -/
theorem c7_all_null_array (lang : Lang) (key : Option String) (xs : List Json)
    (h : ∀ j ∈ xs, j.isNull = true) :
    inferArray lang key (.arr xs) =
      ([], formatArrType lang (anyTypeName lang) (xs.any Json.isNull)) := by
  have hf : xs.filter (fun j => !j.isNull) = [] := by
    apply List.filter_eq_nil_iff.mpr
    intro a ha
    simp [h a ha]
  rw [inferArray_filter_nil lang key xs hf]
  have hany : premitiveTypeName lang .null = anyTypeName lang := by
    cases lang <;> rfl
  rw [hany]

/-- Witness for C7: the all-null-array theorem applied at the one-element
null array with the Go renderer. -/
theorem c7_all_null_array_witness :
    (∀ j ∈ ([Json.null] : List Json), j.isNull = true) ∧
    inferArray .go none (.arr [Json.null]) =
      ([], formatArrType .go (anyTypeName .go) ([Json.null].any Json.isNull)) :=
  ⟨by decide, c7_all_null_array .go none [Json.null] (by decide)⟩

/-- C8: both primitive type mappers are total: Bool maps to the language
boolean type, String to the string type, Null to the "any" type, a Number to
the integer type iff its representation does not require floating point
(else the floating-point type), and the contract-violating Array/Object
inputs map to the "any" type instead of failing — for each of the four
`premitive_type_name` implementations and for the generic
`get_primitive_type_name`. -/
theorem c8_primitive_mapper_total :
    (∀ lang : Lang,
      (∀ b, premitiveTypeName lang (.bool b) = boolTypeName lang) ∧
      (∀ s, premitiveTypeName lang (.str s) = stringTypeName lang) ∧
      premitiveTypeName lang .null = anyTypeName lang ∧
      (∀ f, (premitiveTypeName lang (.num f) = intTypeName lang ↔ f = false) ∧
        (premitiveTypeName lang (.num f) = floatTypeName lang ↔ f = true)) ∧
      (∀ xs, premitiveTypeName lang (.arr xs) = anyTypeName lang) ∧
      (∀ fs, premitiveTypeName lang (.obj fs) = anyTypeName lang)) ∧
    ((∀ b, getPrimitiveTypeName (.bool b) = BOOL) ∧
      (∀ s, getPrimitiveTypeName (.str s) = STRING) ∧
      getPrimitiveTypeName .null = ANY ∧
      (∀ f, (getPrimitiveTypeName (.num f) = INT ↔ f = false) ∧
        (getPrimitiveTypeName (.num f) = FLOAT ↔ f = true)) ∧
      (∀ xs, getPrimitiveTypeName (.arr xs) = ANY) ∧
      (∀ fs, getPrimitiveTypeName (.obj fs) = ANY)) := by
  constructor
  · intro lang
    cases lang <;>
      exact ⟨fun b => rfl, fun s => rfl, rfl,
        fun f => by cases f <;> exact ⟨by decide, by decide⟩,
        fun xs => rfl, fun fs => rfl⟩
  · exact ⟨fun b => rfl, fun s => rfl, rfl,
      fun f => by cases f <;> exact ⟨by decide, by decide⟩,
      fun xs => rfl, fun fs => rfl⟩

/-- C9: the claim that the Go `json:"..."` tag always equals the source key
fails for nested-object fields: `infer_struct` passes the already-PascalCased
`field_name(json_key)` as the key argument of `format_field_type` in its
object branch, so `{"user": {"id": 1}}` is tagged `json:"User"`, not
`json:"user"` (primitive and array fields receive the raw key and are tagged
correctly). -/
theorem c9_go_tag_bug :
    generateTypes .go (Json.obj [("user", Json.obj [("id", Json.num false)])]) =
      ["type User struct \x7b\n\tId\t" ++ GO_INT ++ "\t\t`json:\"id\"`\n\x7d",
       structOrClassHeader .go GO_AUTO_GENERATED ++
         "\tUser\tUser\t\t`json:\"User\"`\n\x7d"] ∧
    formatFieldType .go (structOrClassName .go "user") (fieldName .go "user") =
      "\tUser\tUser\t\t`json:\"User\"`\n" ∧
    formatFieldType .go "User" "user" = "\tUser\tUser\t\t`json:\"user\"`\n" := by
  refine ⟨?_, rfl, rfl⟩
  show inferStruct .go GO_AUTO_GENERATED _ = _
  simp only [inferStruct_obj, inferFields_cons_obj, inferFields_cons_num, inferFields_nil]
  rfl

/-- C10: every record type name that the engine writes into the output as a
field's type or as an array element type is the (normalised) name carried by
the header of some record definition present in the same `generate` output
list. -/
theorem c10_referenced_names_defined (lang : Lang) (v : Json) (n : String)
    (h : n ∈ refNamesGenerate lang v) :
    ∃ s ∈ generateTypes lang v, IsRecordText lang n s := by
  cases v with
  | null => simp [refNamesGenerate] at h
  | bool b => simp [refNamesGenerate] at h
  | num f => simp [refNamesGenerate] at h
  | str s => simp [refNamesGenerate] at h
  | arr xs =>
    exact refNamesArray_covered lang none (.arr xs) n h
  | obj fields =>
    obtain ⟨s, hs, hr⟩ := refNamesFields_covered lang fields n h
    refine ⟨s, ?_, hr⟩
    show s ∈ inferStruct lang GO_AUTO_GENERATED (.obj fields)
    rw [inferStruct_obj]
    exact List.mem_append_left _ hs

/-- Witness for C10: applied at `{"user": {"id": 1}}` with the Go renderer
and the referenced nested type name "User". -/
theorem c10_referenced_names_defined_witness :
    ∃ s ∈ generateTypes .go (Json.obj [("user", Json.obj [("id", Json.num false)])]),
      IsRecordText .go "User" s :=
  c10_referenced_names_defined .go
    (Json.obj [("user", Json.obj [("id", Json.num false)])]) "User"
    (by
      simp only [refNamesGenerate, refNamesFields_cons_obj, refNamesFields_cons_num,
        refNamesFields_nil]
      decide)
